import Mathlib

/-!
Verification of the AllSignals trading-signal engine: the trading-day
resolvers, the 3:30 PM candle extraction, the gap/direction computation,
the expiry selector and the coverage-premium estimator, embedded from
`src/bid.py`, `src/signal.py` and `src/server.py`.

Dates are modelled as integers counting days from an epoch that falls on a
Monday, so `weekday d = d % 7` matches Python's `datetime.weekday()`
(0 = Monday, ..., 5 = Saturday, 6 = Sunday).  Wall-clock instants carry a
date plus hour and minute.  Prices are rationals; Python's
`round(x, 2)` is modelled as rounding to the nearest multiple of 1/100.
-/

namespace AllSignals

/-- Python `datetime.weekday()` of a date given as days since an epoch
Monday: 0 = Monday, ..., 6 = Sunday. -/
def weekday (d : Int) : Int := d % 7

theorem weekday_nonneg (d : Int) : 0 ≤ weekday d :=
  Int.emod_nonneg d (by norm_num)

theorem weekday_lt_seven (d : Int) : weekday d < 7 :=
  Int.emod_lt_of_pos d (by norm_num)

/-- The body of the Python loop `while day.weekday() >= 5: day -= 1`,
with a step-count bound (there are at most two consecutive weekend days,
so any bound of at least 2 realises the loop exactly). -/
def skipWeekendsBackAux : Nat → Int → Int
  | 0, d => d
  | n + 1, d => if 5 ≤ weekday d then skipWeekendsBackAux n (d - 1) else d

/-- `while day.weekday() >= 5: day -= 1` from the three source files. -/
def skipWeekendsBack (d : Int) : Int := skipWeekendsBackAux 7 d

theorem skipWeekendsBackAux_of_weekday_lt (n : Nat) (d : Int)
    (h : weekday d < 5) : skipWeekendsBackAux n d = d := by
  cases n with
  | zero => rfl
  | succ m =>
    simp only [skipWeekendsBackAux]
    rw [if_neg]
    omega

theorem weekday_sub_one (d : Int) :
    weekday (d - 1) = if weekday d = 0 then 6 else weekday d - 1 := by
  simp only [weekday]
  omega

/-- Closed form of the weekend rollback: Saturday steps to Friday,
Sunday steps (through Saturday) to Friday, weekdays stay put. -/
theorem skipWeekendsBack_eq (d : Int) :
    skipWeekendsBack d =
      if weekday d = 5 then d - 1 else if weekday d = 6 then d - 2 else d := by
  simp only [skipWeekendsBack, skipWeekendsBackAux, weekday]
  split_ifs <;> omega

/-- The loop equation: the bounded realisation satisfies the `while` loop's
defining recurrence, so the bound never cuts the loop short. -/
theorem skipWeekendsBack_loop (d : Int) :
    skipWeekendsBack d =
      if 5 ≤ weekday d then skipWeekendsBack (d - 1) else d := by
  rw [skipWeekendsBack_eq, skipWeekendsBack_eq]
  simp only [weekday]
  split_ifs <;> omega

theorem weekday_skipWeekendsBack_lt (d : Int) :
    weekday (skipWeekendsBack d) < 5 := by
  rw [skipWeekendsBack_eq]
  simp only [weekday]
  split_ifs <;> omega

theorem skipWeekendsBack_le (d : Int) : skipWeekendsBack d ≤ d := by
  rw [skipWeekendsBack_eq]
  simp only [weekday]
  split_ifs <;> omega

theorem skipWeekendsBack_eq_self_iff (d : Int) :
    skipWeekendsBack d = d ↔ weekday d < 5 := by
  rw [skipWeekendsBack_eq]
  simp only [weekday]
  split_ifs <;> omega

/-- A wall-clock instant: calendar date plus local clock time. -/
structure Now where
  date : Int
  hour : Nat
  minute : Nat

/-- `now.hour > 9 or (now.hour == 9 and now.minute >= 15)` from
`get_trading_days_bid` in `src/signal.py` and `src/server.py`. -/
def is_after_915 (now : Now) : Bool :=
  decide (9 < now.hour ∨ (now.hour = 9 ∧ 15 ≤ now.minute))

/-- `now.hour > 15 or (now.hour == 15 and now.minute >= 30)` from
`get_trading_days_pricegap` in `src/signal.py` and `src/server.py`. -/
def is_after_1530 (now : Now) : Bool :=
  decide (15 < now.hour ∨ (now.hour = 15 ∧ 30 ≤ now.minute))

/-- `get_trading_days_bid` from `src/signal.py` (lines 135-163):
returns `(prev_day, today, is_market_open)`. -/
def signal_get_trading_days_bid (now : Now) : Int × Int × Bool :=
  let today0 := skipWeekendsBack now.date
  let is_market_open : Bool := (now.date == today0) && is_after_915 now
  let today := if is_market_open then today0 else skipWeekendsBack (today0 - 1)
  let prev_day := skipWeekendsBack (today - 1)
  (prev_day, today, is_market_open)

/-- `get_trading_days_bid` from `src/server.py` (lines 111-132): the same
logic as the `src/signal.py` copy, kept as its own definition because the
source duplicates it. -/
def server_get_trading_days_bid (now : Now) : Int × Int × Bool :=
  let today0 := skipWeekendsBack now.date
  let is_market_open : Bool := (now.date == today0) && is_after_915 now
  let today := if is_market_open then today0 else skipWeekendsBack (today0 - 1)
  let prev_day := skipWeekendsBack (today - 1)
  (prev_day, today, is_market_open)

/-- `get_trading_days` from `src/bid.py` (lines 45-62): shifts back one day
when called before 09:15, then rolls past weekends. -/
def bid_get_trading_days (now : Now) : Int × Int :=
  let shifted :=
    if now.hour < 9 ∨ (now.hour = 9 ∧ now.minute < 15) then now.date - 1
    else now.date
  let today := skipWeekendsBack shifted
  let prev_day := skipWeekendsBack (today - 1)
  (prev_day, today)

/-- `get_trading_days_pricegap` from `src/signal.py` (lines 166-192):
returns `(date, is_data_available)`. -/
def get_trading_days_pricegap (now : Now) : Int × Bool :=
  let today0 := skipWeekendsBack now.date
  let is_today_trading_day := now.date == today0
  let is_data_available : Bool := is_today_trading_day && is_after_1530 now
  let today :=
    if is_data_available then today0
    else skipWeekendsBack (if is_today_trading_day then today0 - 1 else today0)
  (today, is_data_available)

theorem skipWeekendsBack_add_one_le (d : Int) :
    skipWeekendsBack (d - 1) + 1 ≤ d := by
  have h := skipWeekendsBack_le (d - 1)
  omega

/-- C1: the BID resolver reports `market_open` exactly when `now`'s date
equals the weekend-rolled `today` and the clock reads 09:15 or later; when
the market is not open, the returned `today` is the rolled date stepped back
one calendar day and re-rolled past any weekend.  In particular a Monday
(date 7) at 09:14 resolves `today` to the preceding Friday (date 4). -/
theorem bid_resolver_market_open_spec (now : Now) :
    ((signal_get_trading_days_bid now).2.2 = true ↔
      (now.date = skipWeekendsBack now.date ∧
        (9 < now.hour ∨ (now.hour = 9 ∧ 15 ≤ now.minute)))) ∧
    ((signal_get_trading_days_bid now).2.2 = false →
      (signal_get_trading_days_bid now).2.1 =
        skipWeekendsBack (skipWeekendsBack now.date - 1)) ∧
    (signal_get_trading_days_bid ⟨7, 9, 14⟩).2.2 = false ∧
    (signal_get_trading_days_bid ⟨7, 9, 14⟩).2.1 = 4 ∧
    weekday 7 = 0 ∧ weekday 4 = 4 := by
  refine ⟨?_, ?_, by decide, by decide, by decide, by decide⟩
  · simp [signal_get_trading_days_bid, is_after_915]
  · intro h
    simp only [signal_get_trading_days_bid] at h ⊢
    simp [h]

/-- C2: for every wall-clock instant, both dates the BID resolver returns
and the date the PriceGap resolver returns fall on a weekday (weekday in
0..4), and the BID `prev_day` precedes its `today` by at least one
calendar day. -/
theorem resolver_weekday_invariant (now : Now) :
    0 ≤ weekday (signal_get_trading_days_bid now).1 ∧
    weekday (signal_get_trading_days_bid now).1 < 5 ∧
    0 ≤ weekday (signal_get_trading_days_bid now).2.1 ∧
    weekday (signal_get_trading_days_bid now).2.1 < 5 ∧
    (signal_get_trading_days_bid now).1 + 1 ≤
      (signal_get_trading_days_bid now).2.1 ∧
    0 ≤ weekday (get_trading_days_pricegap now).1 ∧
    weekday (get_trading_days_pricegap now).1 < 5 := by
  simp only [signal_get_trading_days_bid, get_trading_days_pricegap]
  refine ⟨weekday_nonneg _, ?_, weekday_nonneg _, ?_, ?_, weekday_nonneg _, ?_⟩
  · exact weekday_skipWeekendsBack_lt _
  · split <;> exact weekday_skipWeekendsBack_lt _
  · exact skipWeekendsBack_add_one_le _
  · split <;> exact weekday_skipWeekendsBack_lt _

/-- C3: the PriceGap resolver reports `data_available` exactly when `now`'s
date equals the weekend-rolled `today` and the clock reads 15:30 or later;
when data is not available, `today` steps back one calendar day only if it
equalled `now`'s date, and the result is rolled past any weekend before
being returned. -/
theorem pricegap_resolver_data_available_spec (now : Now) :
    ((get_trading_days_pricegap now).2 = true ↔
      (now.date = skipWeekendsBack now.date ∧
        (15 < now.hour ∨ (now.hour = 15 ∧ 30 ≤ now.minute)))) ∧
    ((get_trading_days_pricegap now).2 = false →
      (get_trading_days_pricegap now).1 =
        skipWeekendsBack (if now.date = skipWeekendsBack now.date
          then skipWeekendsBack now.date - 1 else skipWeekendsBack now.date)) := by
  constructor
  · simp [get_trading_days_pricegap, is_after_1530]
  · intro h
    simp only [get_trading_days_pricegap] at h ⊢
    simp only [h, if_false, Bool.false_eq_true, beq_iff_eq]

/-- C9 counterexample: on a Saturday at 10:00 (date 5), `get_trading_days`
from `src/bid.py` returns the (Thursday, Friday) pair (3, 4), while
`get_trading_days_bid` from `src/signal.py` returns (Wednesday, Thursday)
= (2, 3); the three BID day resolvers do not agree for every `now`. -/
theorem bid_resolvers_disagree_cex :
    bid_get_trading_days ⟨5, 10, 0⟩ ≠
      ((signal_get_trading_days_bid ⟨5, 10, 0⟩).1,
        (signal_get_trading_days_bid ⟨5, 10, 0⟩).2.1) := by decide

/-- C9 (amended): the `src/signal.py` and `src/server.py` BID resolvers
agree for every `now`, and the `src/bid.py` resolver returns the same
(prev_day, today) pair whenever `now` falls on a weekday; the three only
disagree on weekend instants. -/
theorem bid_resolvers_agree_on_weekdays (now : Now) :
    signal_get_trading_days_bid now = server_get_trading_days_bid now ∧
    (weekday now.date < 5 →
      bid_get_trading_days now =
        ((signal_get_trading_days_bid now).1,
          (signal_get_trading_days_bid now).2.1)) := by
  refine ⟨rfl, ?_⟩
  intro h
  have hskip : skipWeekendsBack now.date = now.date :=
    (skipWeekendsBack_eq_self_iff _).2 h
  simp only [bid_get_trading_days, signal_get_trading_days_bid]
  by_cases hA : 9 < now.hour ∨ (now.hour = 9 ∧ 15 ≤ now.minute)
  · have hB : ¬ (now.hour < 9 ∨ (now.hour = 9 ∧ now.minute < 15)) := by omega
    simp [is_after_915, hA, hB, hskip]
  · have hB : now.hour < 9 ∨ (now.hour = 9 ∧ now.minute < 15) := by omega
    simp [is_after_915, hA, hB, hskip]

/-- A minute-candle timestamp as the scan sees it: either
`datetime.fromisoformat` produced a local (hour, minute), or parsing
raised and the candle is skipped. -/
inductive Timestamp where
  | valid (hour minute : Nat)
  | malformed
deriving DecidableEq

/-- One minute candle: parsed timestamp plus close price (`candle[4]`). -/
structure Candle where
  ts : Timestamp
  close : ℚ
deriving DecidableEq

/-- Python's lexicographic tuple comparison `(hour, minute) > best_time`,
written as `best_time < (hour, minute)`. -/
def lexLt (a b : Nat × Nat) : Prop := a.1 < b.1 ∨ (a.1 = b.1 ∧ a.2 < b.2)

instance (a b : Nat × Nat) : Decidable (lexLt a b) :=
  inferInstanceAs (Decidable (_ ∨ _))

def lexLe (a b : Nat × Nat) : Prop := a.1 < b.1 ∨ (a.1 = b.1 ∧ a.2 ≤ b.2)

instance (a b : Nat × Nat) : Decidable (lexLe a b) :=
  inferInstanceAs (Decidable (_ ∨ _))

/-- A candle the `get_330_ltp` scan may keep: its timestamp parsed and
reads at or before 15:29 (hour 15 with minute at most 29, or hour
below 15). -/
def isQual : Candle → Prop
  | ⟨Timestamp.valid h m, _⟩ => (h = 15 ∧ m ≤ 29) ∨ h < 15
  | ⟨Timestamp.malformed, _⟩ => False

instance : DecidablePred isQual := fun c =>
  match c with
  | ⟨Timestamp.valid h m, _⟩ =>
    inferInstanceAs (Decidable ((h = 15 ∧ m ≤ 29) ∨ h < 15))
  | ⟨Timestamp.malformed, _⟩ => inferInstanceAs (Decidable False)

def candleTime : Candle → Nat × Nat
  | ⟨Timestamp.valid h m, _⟩ => (h, m)
  | ⟨Timestamp.malformed, _⟩ => (0, 0)

/-- One iteration of the candle loop in `get_330_ltp` (`src/signal.py`
lines 217-232, duplicated in `src/bid.py` and `src/server.py`): a
malformed timestamp is skipped, a 15:00-15:29 or before-15:00 candle
replaces the best candle when its (hour, minute) is lexicographically
greater, and any other candle leaves the state unchanged. -/
def ltpStep (best : Option ((Nat × Nat) × Candle)) (c : Candle) :
    Option ((Nat × Nat) × Candle) :=
  match c.ts with
  | Timestamp.malformed => best
  | Timestamp.valid h m =>
    if h = 15 ∧ m ≤ 29 then
      match best with
      | none => some ((h, m), c)
      | some (bt, bc) =>
        if lexLt bt (h, m) then some ((h, m), c) else some (bt, bc)
    else if h < 15 then
      match best with
      | none => some ((h, m), c)
      | some (bt, bc) =>
        if lexLt bt (h, m) then some ((h, m), c) else some (bt, bc)
    else best

/-- `get_330_ltp`'s candle scan: fold the loop body over the candle list
and return the close of the best candle, if any. -/
def get_330_ltp (candles : List Candle) : Option ℚ :=
  (candles.foldl ltpStep none).map fun p => p.2.close

theorem ltpStep_malformed (st : Option ((Nat × Nat) × Candle)) (cl : ℚ) :
    ltpStep st ⟨Timestamp.malformed, cl⟩ = st := rfl

theorem ltpStep_valid_qual (st : Option ((Nat × Nat) × Candle))
    (h m : Nat) (cl : ℚ) (hq : (h = 15 ∧ m ≤ 29) ∨ h < 15) :
    ltpStep st ⟨Timestamp.valid h m, cl⟩ =
      match st with
      | none => some ((h, m), ⟨Timestamp.valid h m, cl⟩)
      | some (bt, bc) =>
        if lexLt bt (h, m) then some ((h, m), ⟨Timestamp.valid h m, cl⟩)
        else some (bt, bc) := by
  simp only [ltpStep]
  split_ifs with h1 h2
  · rfl
  · rfl
  · exact absurd hq (by omega)

theorem ltpStep_valid_notqual (st : Option ((Nat × Nat) × Candle))
    (h m : Nat) (cl : ℚ) (hq : ¬ ((h = 15 ∧ m ≤ 29) ∨ h < 15)) :
    ltpStep st ⟨Timestamp.valid h m, cl⟩ = st := by
  simp only [ltpStep]
  split_ifs with h1 h2
  · exact absurd (Or.inl h1) hq
  · exact absurd (Or.inr h2) hq
  · rfl

/-- The loop invariant of the `get_330_ltp` scan over the candles seen so
far: an empty state means no qualifying candle was seen, and a non-empty
state holds a seen qualifying candle whose time dominates every seen
qualifying candle's time. -/
def scanInv (l : List Candle) : Option ((Nat × Nat) × Candle) → Prop
  | none => ∀ c ∈ l, ¬ isQual c
  | some (t, c) => c ∈ l ∧ c.ts = Timestamp.valid t.1 t.2 ∧ isQual c ∧
      ∀ c' ∈ l, isQual c' → lexLe (candleTime c') t

theorem lexLe_refl (a : Nat × Nat) : lexLe a a := by
  simp [lexLe]

theorem lexLe_of_not_lexLt (a b : Nat × Nat) (h : ¬ lexLt a b) : lexLe b a := by
  simp only [lexLt, lexLe] at *
  omega

theorem lexLe_of_lexLe_of_lexLt (a b c : Nat × Nat)
    (h1 : lexLe a b) (h2 : lexLt b c) : lexLe a c := by
  simp only [lexLt, lexLe] at *
  omega

theorem scanInv_step (l : List Candle) (st : Option ((Nat × Nat) × Candle))
    (c : Candle) (hinv : scanInv l st) : scanInv (l ++ [c]) (ltpStep st c) := by
  rcases c with ⟨ts, cl⟩
  cases ts with
  | malformed =>
    rw [ltpStep_malformed]
    cases st with
    | none =>
      simp only [scanInv] at hinv ⊢
      intro c' hc'
      rcases List.mem_append.1 hc' with h | h
      · exact hinv c' h
      · rcases List.mem_singleton.1 h with rfl
        exact fun hq => hq
    | some p =>
      rcases p with ⟨t, bc⟩
      simp only [scanInv] at hinv ⊢
      obtain ⟨hmem, hts, hq, hmax⟩ := hinv
      refine ⟨List.mem_append_left _ hmem, hts, hq, ?_⟩
      intro c' hc' hq'
      rcases List.mem_append.1 hc' with h | h
      · exact hmax c' h hq'
      · rcases List.mem_singleton.1 h with rfl
        exact absurd hq' (fun hh => hh)
  | valid h m =>
    by_cases hq : (h = 15 ∧ m ≤ 29) ∨ h < 15
    · rw [ltpStep_valid_qual st h m cl hq]
      cases st with
      | none =>
        simp only [scanInv] at hinv ⊢
        refine ⟨List.mem_append_right _ (List.mem_singleton.2 rfl), by trivial, hq, ?_⟩
        intro c' hc' hq'
        rcases List.mem_append.1 hc' with hmem | hmem
        · exact absurd hq' (hinv c' hmem)
        · rcases List.mem_singleton.1 hmem with rfl
          exact lexLe_refl (h, m)
      | some p =>
        rcases p with ⟨t, bc⟩
        simp only [scanInv] at hinv ⊢
        obtain ⟨hmem, hts, hbq, hmax⟩ := hinv
        by_cases hlt : lexLt t (h, m)
        · rw [if_pos hlt]
          refine ⟨List.mem_append_right _ (List.mem_singleton.2 rfl), by trivial, hq, ?_⟩
          intro c' hc' hq'
          rcases List.mem_append.1 hc' with hmem' | hmem'
          · exact lexLe_of_lexLe_of_lexLt _ _ _ (hmax c' hmem' hq') hlt
          · rcases List.mem_singleton.1 hmem' with rfl
            exact lexLe_refl (h, m)
        · rw [if_neg hlt]
          refine ⟨List.mem_append_left _ hmem, hts, hbq, ?_⟩
          intro c' hc' hq'
          rcases List.mem_append.1 hc' with hmem' | hmem'
          · exact hmax c' hmem' hq'
          · rcases List.mem_singleton.1 hmem' with rfl
            exact lexLe_of_not_lexLt _ _ hlt
    · rw [ltpStep_valid_notqual st h m cl hq]
      cases st with
      | none =>
        simp only [scanInv] at hinv ⊢
        intro c' hc'
        rcases List.mem_append.1 hc' with hmem | hmem
        · exact hinv c' hmem
        · rcases List.mem_singleton.1 hmem with rfl
          exact hq
      | some p =>
        rcases p with ⟨t, bc⟩
        simp only [scanInv] at hinv ⊢
        obtain ⟨hmem, hts, hbq, hmax⟩ := hinv
        refine ⟨List.mem_append_left _ hmem, hts, hbq, ?_⟩
        intro c' hc' hq'
        rcases List.mem_append.1 hc' with hmem' | hmem'
        · exact hmax c' hmem' hq'
        · rcases List.mem_singleton.1 hmem' with rfl
          exact absurd hq' hq

theorem scanInv_foldl (l : List Candle) :
    ∀ (pre : List Candle) (st : Option ((Nat × Nat) × Candle)),
      scanInv pre st → scanInv (pre ++ l) (List.foldl ltpStep st l) := by
  induction l with
  | nil => intro pre st h; simpa using h
  | cons c t ih =>
    intro pre st h
    have h2 := ih (pre ++ [c]) _ (scanInv_step pre st c h)
    simpa [List.append_assoc] using h2

theorem scanInv_nil_none : scanInv ([] : List Candle) none := by
  intro c hc
  simp at hc

theorem scanInv_result (l : List Candle) :
    scanInv l (List.foldl ltpStep none l) := by
  simpa using scanInv_foldl l [] none scanInv_nil_none

theorem foldl_none_of_no_qual (l : List Candle)
    (h : ∀ c ∈ l, ¬ isQual c) : List.foldl ltpStep none l = none := by
  induction l with
  | nil => rfl
  | cons c t ih =>
    have hc : ¬ isQual c := h c (List.mem_cons_self c t)
    have hstep : ltpStep none c = none := by
      rcases c with ⟨ts, cl⟩
      cases ts with
      | malformed => rfl
      | valid hh mm => exact ltpStep_valid_notqual none hh mm cl hc
    rw [List.foldl_cons, hstep]
    exact ih fun c' h' => h c' (List.mem_cons_of_mem _ h')

/-- The spec scenario: candles at 15:25, 15:29 and 15:31. -/
def scenario1529 : List Candle :=
  [⟨Timestamp.valid 15 25, 101⟩, ⟨Timestamp.valid 15 29, 102⟩,
    ⟨Timestamp.valid 15 31, 103⟩]

/-- C4: the 3:30 PM LTP extraction returns nothing exactly when no candle
qualifies (parsed time before 15:30); any returned value is the close of a
qualifying candle whose (hour, minute) is lexicographically greatest among
the qualifying candles; a malformed candle anywhere in the list leaves the
result unchanged; and on the 15:25/15:29/15:31 scenario the 15:29
candle's close is selected. -/
theorem get_330_ltp_spec (candles : List Candle) :
    (get_330_ltp candles = none ↔ ∀ c ∈ candles, ¬ isQual c) ∧
    (∀ v, get_330_ltp candles = some v →
      ∃ c, c ∈ candles ∧ isQual c ∧ c.close = v ∧
        ∀ c' ∈ candles, isQual c' → lexLe (candleTime c') (candleTime c)) ∧
    (∀ (l1 l2 : List Candle) (cl : ℚ),
      get_330_ltp (l1 ++ ⟨Timestamp.malformed, cl⟩ :: l2) =
        get_330_ltp (l1 ++ l2)) ∧
    get_330_ltp scenario1529 = some 102 := by
  refine ⟨⟨?_, ?_⟩, ?_, ?_, by decide⟩
  · intro h
    have hres := scanInv_result candles
    rw [show List.foldl ltpStep none candles = none by
      simpa [get_330_ltp, Option.map_eq_none'] using h] at hres
    exact hres
  · intro h
    simp only [get_330_ltp, foldl_none_of_no_qual candles h]
    rfl
  · intro v hv
    simp only [get_330_ltp, Option.map_eq_some'] at hv
    obtain ⟨p, hp, hclose⟩ := hv
    have hres := scanInv_result candles
    rw [hp] at hres
    rcases p with ⟨t, c⟩
    obtain ⟨hmem, hts, hq, hmax⟩ := hres
    refine ⟨c, hmem, hq, hclose, ?_⟩
    intro c' hc' hq'
    have : candleTime c = t := by
      rcases c with ⟨cts, ccl⟩
      cases cts with
      | valid ch cm =>
        simp only [candleTime]
        injection hts with e1 e2
        simp [e1, e2]
      | malformed => exact absurd hts (by simp)
    rw [this]
    exact hmax c' hc' hq'
  · intro l1 l2 cl
    simp only [get_330_ltp, List.foldl_append, List.foldl_cons, ltpStep_malformed]

/-- Python `round(x, 2)`: rounding to the nearest multiple of 1/100,
modelled over the rationals. -/
def round2 (q : ℚ) : ℚ := (round (q * 100) : ℤ) / 100

/-- A computed gap record, as assembled in `get_all_signal_data`
(`src/server.py`): signed gap, percentage gap and direction string. -/
structure GapResult where
  gap : ℚ
  gap_pct : ℚ
  direction : String
deriving DecidableEq

/-- The BID gap arithmetic of `get_all_signal_data` (`src/server.py`
lines 341-346): `gap = round(open_915 - ltp_330, 2)`,
`gap_pct = round(gap / ltp_330 * 100, 2)`, direction by the sign of
`gap`. -/
def server_bid_gap (ltp_330 open_915 : ℚ) : GapResult :=
  let gap := round2 (open_915 - ltp_330)
  let gap_pct := round2 (gap / ltp_330 * 100)
  { gap := gap, gap_pct := gap_pct,
    direction := if 0 < gap then "up" else if gap < 0 then "down" else "flat" }

/-- The PriceGap arithmetic of `get_all_signal_data` (`src/server.py`
lines 362-367): `gap = round(ltp_330 - daily_close, 2)`, percentage
relative to `daily_close`. -/
def server_pricegap_gap (ltp_330 daily_close : ℚ) : GapResult :=
  let gap := round2 (ltp_330 - daily_close)
  let gap_pct := round2 (gap / daily_close * 100)
  { gap := gap, gap_pct := gap_pct,
    direction := if 0 < gap then "up" else if gap < 0 then "down" else "flat" }

/-- `format_gap` from `src/signal.py` (lines 294-312), reduced to its
data content: the direction string and the percentage
`round((gap / base) * 100, 2) if base else 0`. -/
def format_gap (gap base : ℚ) : String × ℚ :=
  let gap_pct := if base ≠ 0 then round2 (gap / base * 100) else 0
  let direction := if 0 < gap then "Up" else if gap < 0 then "Down" else "Flat"
  (direction, gap_pct)

/-- The guarded BID computation `if ltp_330_prev and open_915_today:` of
`src/server.py` (line 341) and `src/signal.py` (line 595): a missing
price or a Python-falsy price of 0.0 yields no GapResult. -/
def compute_bid_signal : Option ℚ → Option ℚ → Option GapResult
  | some l, some o =>
    if l ≠ 0 ∧ o ≠ 0 then some (server_bid_gap l o) else none
  | _, _ => none

/-- The guarded PriceGap computation `if ltp_330 and daily_close:` of
`src/server.py` (line 362) and `src/signal.py` (line 621). -/
def compute_pricegap_signal : Option ℚ → Option ℚ → Option GapResult
  | some l, some c =>
    if l ≠ 0 ∧ c ≠ 0 then some (server_pricegap_gap l c) else none
  | _, _ => none

/-- C5: for a present pair of prices with nonzero base, the GapResult
satisfies `gap = round2 (later - earlier)`,
`gap_pct = round2 (gap / earlier * 100)`, and the direction string is
"up"/"down"/"flat" exactly for positive/negative/zero gap; likewise
`format_gap` from `src/signal.py` computes the same percentage and the
same sign-trichotomy of its direction word. -/
theorem gap_result_spec (earlier later : ℚ) (hbase : earlier ≠ 0) :
    (server_bid_gap earlier later).gap = round2 (later - earlier) ∧
    (server_bid_gap earlier later).gap_pct =
      round2 ((server_bid_gap earlier later).gap / earlier * 100) ∧
    ((server_bid_gap earlier later).direction = "up" ↔
      0 < (server_bid_gap earlier later).gap) ∧
    ((server_bid_gap earlier later).direction = "down" ↔
      (server_bid_gap earlier later).gap < 0) ∧
    ((server_bid_gap earlier later).direction = "flat" ↔
      (server_bid_gap earlier later).gap = 0) ∧
    (∀ g : ℚ, (format_gap g earlier).2 = round2 (g / earlier * 100)) ∧
    (∀ g : ℚ, ((format_gap g earlier).1 = "Up" ↔ 0 < g) ∧
      ((format_gap g earlier).1 = "Down" ↔ g < 0) ∧
      ((format_gap g earlier).1 = "Flat" ↔ g = 0)) := by
  refine ⟨rfl, rfl, ?_, ?_, ?_, ?_, ?_⟩
  · simp only [server_bid_gap]
    split_ifs with h1 h2 <;> simp <;> linarith
  · simp only [server_bid_gap]
    split_ifs with h1 h2 <;> simp <;> linarith
  · simp only [server_bid_gap]
    split_ifs with h1 h2 <;> simp <;> linarith
  · intro g
    simp only [format_gap, if_pos hbase]
  · intro g
    refine ⟨?_, ?_, ?_⟩ <;> simp only [format_gap] <;>
      split_ifs with h1 h2 <;> simp <;> linarith

/-- C5 witness: the theorem applied at the concrete present pair
(earlier, later) = (24800, 24850). -/
theorem gap_result_spec_witness :
    (server_bid_gap 24800 24850).gap = round2 (24850 - 24800) ∧
    (server_bid_gap 24800 24850).gap_pct =
      round2 ((server_bid_gap 24800 24850).gap / 24800 * 100) ∧
    ((server_bid_gap 24800 24850).direction = "up" ↔
      0 < (server_bid_gap 24800 24850).gap) ∧
    ((server_bid_gap 24800 24850).direction = "down" ↔
      (server_bid_gap 24800 24850).gap < 0) ∧
    ((server_bid_gap 24800 24850).direction = "flat" ↔
      (server_bid_gap 24800 24850).gap = 0) ∧
    (∀ g : ℚ, (format_gap g 24800).2 = round2 (g / 24800 * 100)) ∧
    (∀ g : ℚ, ((format_gap g 24800).1 = "Up" ↔ 0 < g) ∧
      ((format_gap g 24800).1 = "Down" ↔ g < 0) ∧
      ((format_gap g 24800).1 = "Flat" ↔ g = 0)) :=
  gap_result_spec 24800 24850 (by norm_num)

/-- C6: a zero or missing base price makes the guarded BID and PriceGap
computations report no signal instead of dividing by zero, and whenever a
GapResult is produced its base was present and nonzero and the percentage
was computed against that base. -/
theorem zero_base_unavailable :
    (∀ o : Option ℚ, compute_bid_signal (some 0) o = none) ∧
    (∀ o : Option ℚ, compute_bid_signal none o = none) ∧
    (∀ l : Option ℚ, compute_pricegap_signal l (some 0) = none) ∧
    (∀ l : Option ℚ, compute_pricegap_signal l none = none) ∧
    (∀ (l o : Option ℚ) (r : GapResult), compute_bid_signal l o = some r →
      ∃ lv, l = some lv ∧ lv ≠ 0 ∧ r.gap_pct = round2 (r.gap / lv * 100)) ∧
    (∀ (l c : Option ℚ) (r : GapResult),
      compute_pricegap_signal l c = some r →
      ∃ cv, c = some cv ∧ cv ≠ 0 ∧ r.gap_pct = round2 (r.gap / cv * 100)) := by
  refine ⟨?_, ?_, ?_, ?_, ?_, ?_⟩
  · intro o
    cases o <;> simp [compute_bid_signal]
  · intro o
    cases o <;> rfl
  · intro l
    cases l <;> simp [compute_pricegap_signal]
  · intro l
    cases l <;> rfl
  · intro l o r h
    cases l with
    | none => exact absurd h (by cases o <;> simp [compute_bid_signal])
    | some lv =>
      cases o with
      | none => exact absurd h (by simp [compute_bid_signal])
      | some ov =>
        simp only [compute_bid_signal] at h
        split_ifs at h with hc
        obtain rfl := Option.some.inj h
        exact ⟨lv, rfl, hc.1, rfl⟩
  · intro l c r h
    cases l with
    | none => exact absurd h (by cases c <;> simp [compute_pricegap_signal])
    | some lv =>
      cases c with
      | none => exact absurd h (by simp [compute_pricegap_signal])
      | some cv =>
        simp only [compute_pricegap_signal] at h
        split_ifs at h with hc
        obtain rfl := Option.some.inj h
        exact ⟨cv, rfl, hc.2, rfl⟩

/-- The per-instrument scan of `get_nearest_expiry_instrument`
(`src/signal.py` lines 104-121, `src/server.py` lines 88-100): walk the
expiry list in order and return the first expiry whose days-to-expiry
lies in `[0, maxDte]` together with that DTE, defaulting to the 999
sentinel with no expiry. -/
def find_expiry : List Int → Int → Int → Int × Option Int
  | [], _, _ => (999, none)
  | e :: rest, today, maxDte =>
    let dte := e - today
    if 0 ≤ dte ∧ dte ≤ maxDte then (dte, some e)
    else find_expiry rest today maxDte

/-- `get_nearest_expiry_instrument` from `src/signal.py` (lines 90-132)
and `src/server.py` (lines 81-108): NIFTY window `[0, 2]`, SENSEX window
`[0, 1]`, then the chain `nifty_dte <= sensex_dte and nifty_expiry` /
`sensex_expiry` / `nifty_expiry` / `None`. -/
def get_nearest_expiry_instrument (today : Int)
    (niftyExpiries sensexExpiries : List Int) :
    Option (String × Int × Int) :=
  let n := find_expiry niftyExpiries today 2
  let s := find_expiry sensexExpiries today 1
  if n.1 ≤ s.1 ∧ n.2.isSome then
    match n.2 with
    | some e => some ("NIFTY", e, n.1)
    | none => none
  else if s.2.isSome then
    match s.2 with
    | some e => some ("SENSEX", e, s.1)
    | none => none
  else if n.2.isSome then
    match n.2 with
    | some e => some ("NIFTY", e, n.1)
    | none => none
  else none

/-- The expiry-selection rule as the claim words it, for comparison with
the code's `get_nearest_expiry_instrument`: per instrument take the first
expiry with DTE in the inclusive window ([0, 2] for NIFTY, [0, 1] for
SENSEX); with both valid pick the smaller DTE and NIFTY on a tie, with
exactly one valid pick it, with none report no valid expiry. -/
def selector_spec (today : Int) (niftyExpiries sensexExpiries : List Int) :
    Option (String × Int × Int) :=
  let nOpt := niftyExpiries.find? fun e => decide (0 ≤ e - today ∧ e - today ≤ 2)
  let sOpt := sensexExpiries.find? fun e => decide (0 ≤ e - today ∧ e - today ≤ 1)
  match nOpt, sOpt with
  | some n, some s =>
    if n - today ≤ s - today then some ("NIFTY", n, n - today)
    else some ("SENSEX", s, s - today)
  | some n, none => some ("NIFTY", n, n - today)
  | none, some s => some ("SENSEX", s, s - today)
  | none, none => none

theorem find_expiry_eq_find? (l : List Int) (today maxDte : Int) :
    find_expiry l today maxDte =
      match l.find? fun e => decide (0 ≤ e - today ∧ e - today ≤ maxDte) with
      | some e => (e - today, some e)
      | none => (999, none) := by
  induction l with
  | nil => rfl
  | cons e rest ih =>
    simp only [find_expiry, List.find?]
    by_cases h : 0 ≤ e - today ∧ e - today ≤ maxDte
    · rw [if_pos h, decide_eq_true h]
    · rw [if_neg h, decide_eq_false h]
      exact ih

theorem find?_window_bounds {l : List Int} {today maxDte e : Int}
    (h : (l.find? fun x => decide (0 ≤ x - today ∧ x - today ≤ maxDte)) = some e) :
    0 ≤ e - today ∧ e - today ≤ maxDte := by
  have := List.find?_some h
  simpa using this

/-- C7: the code's expiry selector agrees with the claim's selection rule
for every `today` and every pair of expiry lists: per-instrument first
expiry with DTE in the inclusive window, smaller DTE wins, NIFTY wins
ties, a single valid instrument is picked, and no valid instrument
yields no selection. -/
theorem expiry_selector_spec (today : Int)
    (niftyExpiries sensexExpiries : List Int) :
    get_nearest_expiry_instrument today niftyExpiries sensexExpiries =
      selector_spec today niftyExpiries sensexExpiries := by
  simp only [get_nearest_expiry_instrument, selector_spec,
    find_expiry_eq_find?]
  cases hn : niftyExpiries.find? fun e => decide (0 ≤ e - today ∧ e - today ≤ 2) with
  | none =>
    cases hs : sensexExpiries.find? fun e => decide (0 ≤ e - today ∧ e - today ≤ 1) with
    | none => simp
    | some es =>
      have hb := find?_window_bounds hs
      simp
  | some en =>
    have hbn := find?_window_bounds hn
    cases hs : sensexExpiries.find? fun e => decide (0 ≤ e - today ∧ e - today ≤ 1) with
    | none =>
      dsimp only
      rw [if_pos ⟨by omega, rfl⟩]
    | some es =>
      have hbs := find?_window_bounds hs
      dsimp only
      by_cases hle : en - today ≤ es - today
      · rw [if_pos ⟨hle, rfl⟩, if_pos hle]
      · rw [if_neg (fun hc => hle hc.1),
          if_pos (show (some es).isSome = true from rfl), if_neg hle]

/-- The `PREMIUM_PCT` table with its `.get(dte, 0.54)` default
(`src/server.py` lines 30-36 and 384, `src/signal.py` lines 392-398
and 505). -/
def PREMIUM_PCT (dte : Int) : ℚ :=
  if dte = 0 then 54/100
  else if dte = 1 then 81/100
  else if dte = 2 then 105/100
  else if dte = 3 then 120/100
  else if dte = 4 then 138/100
  else 54/100

/-- `premium = round(spot * pct / 100, 2)` (`src/server.py` line 385). -/
def coverage_premium (spot : ℚ) (dte : Int) : ℚ :=
  round2 (spot * PREMIUM_PCT dte / 100)

/-- The per-instrument coverage entry of `get_all_signal_data`
(`src/server.py` lines 379-392): `(dte, spot, pct, premium)`, appended
only when `inst_dte is not None and spot` holds (DTE present, spot
present and nonzero). -/
def coverage_entry : Option Int → Option ℚ → Option (Int × ℚ × ℚ × ℚ)
  | some d, some s =>
    if s ≠ 0 then some (d, s, PREMIUM_PCT d, coverage_premium s d) else none
  | _, _ => none

/-- C8: the coverage estimator's percent table reads 0.54/0.81/1.05/1.20/
1.38 for DTE 0..4 and defaults to 0.54 off the table (for example at
DTE 9); the premium is `round2 (spot * percent / 100)`, in particular
262.5 for spot 25000 at DTE 2; and an instrument with a missing DTE or a
missing spot price is omitted from the coverage result. -/
theorem coverage_premium_spec :
    PREMIUM_PCT 0 = 54/100 ∧ PREMIUM_PCT 1 = 81/100 ∧
    PREMIUM_PCT 2 = 105/100 ∧ PREMIUM_PCT 3 = 120/100 ∧
    PREMIUM_PCT 4 = 138/100 ∧ PREMIUM_PCT 9 = 54/100 ∧
    (∀ d : Int, d ≠ 0 → d ≠ 1 → d ≠ 2 → d ≠ 3 → d ≠ 4 →
      PREMIUM_PCT d = 54/100) ∧
    (∀ (s : ℚ) (d : Int),
      coverage_premium s d = round2 (s * PREMIUM_PCT d / 100)) ∧
    coverage_premium 25000 2 = 525/2 ∧
    (∀ s : Option ℚ, coverage_entry none s = none) ∧
    (∀ d : Option Int, coverage_entry d none = none) := by
  refine ⟨by norm_num [PREMIUM_PCT], by norm_num [PREMIUM_PCT],
    by norm_num [PREMIUM_PCT], by norm_num [PREMIUM_PCT],
    by norm_num [PREMIUM_PCT], by norm_num [PREMIUM_PCT],
    ?_, fun s d => rfl, ?_, ?_, ?_⟩
  · intro d h0 h1 h2 h3 h4
    simp [PREMIUM_PCT, h0, h1, h2, h3, h4]
  · have hpct : PREMIUM_PCT 2 = 105/100 := by norm_num [PREMIUM_PCT]
    rw [coverage_premium, hpct, round2]
    norm_num
  · intro s
    cases s <;> rfl
  · intro d
    cases d <;> rfl

/-- `trading_day_dte = max(0, dte - 1)` from `get_all_signal_data`
(`src/server.py` lines 394-400) and `main` (`src/signal.py` lines
579-582): the DTE exposed in the signal bundle and the CLI header. -/
def trading_day_dte (dte : Int) : Int := max 0 (dte - 1)

/-- C10 counterexample: when the expiry selector computes DTE 0, the
exposed `dte` field equals the selector's DTE (both are 0), so the
exposed field is not always different from the selector's DTE. -/
theorem exposed_dte_equals_selector_dte_cex : trading_day_dte 0 = 0 := by
  decide

/-- C10 (amended): the `dte` field exposed in the signal bundle equals
`max 0 (d - 1)` where `d` is the DTE computed by the expiry selector;
this differs from the selector's DTE whenever `1 ≤ d`, and coincides
with it at `d = 0`. -/
theorem exposed_dte_spec (d : Int) :
    trading_day_dte d = max 0 (d - 1) ∧
    (1 ≤ d → trading_day_dte d ≠ d) ∧
    trading_day_dte 0 = 0 := by
  refine ⟨rfl, ?_, by decide⟩
  intro h1
  have hm : max 0 (d - 1) = d - 1 := max_eq_right (by omega)
  simp only [trading_day_dte, hm]
  omega

end AllSignals
